import Mathlib

/-!
Shallow embedding of `src/local-indexing.py` (blob-to-search-index ingestion
pipeline): the chunker `chunk_text`, the identifier builder
(`sanitize_id` plus the raw-id construction in `main`), the extractor
dispatch `extract_text`, the batch uploader `upload_documents`, and the
configuration stage of `main`.  Machine strings are Lean `String`s
(sequences of characters, as in Python); Python `int`s are `Int`.
-/

/-! ## Python primitives -/

/-- Python index normalization for a slice bound on a sequence of length `n`:
a negative index counts from the end (clamped at 0), a non-negative one is
clamped at `n`. -/
def pyIdx (n : Nat) (i : Int) : Nat :=
  if i < 0 then ((n : Int) + i).toNat else min i.toNat n

/-- Python slice `xs[a:b]`. -/
def pySlice (xs : List α) (a b : Int) : List α :=
  (xs.take (pyIdx xs.length b)).drop (pyIdx xs.length a)

/-- Python `sep.join(l)`: empty for `[]`, otherwise the first element followed
by `sep ++ t` for each later element `t`. -/
def pyJoin (sep : String) : List String → String
  | [] => ""
  | x :: xs => xs.foldl (fun acc t => acc ++ sep ++ t) x

/-- Helper for `pySplit`: cut a character list at every whitespace character,
keeping empty pieces; `acc` holds the characters of the current piece in
reverse. -/
def wsSplitAux : List Char → List Char → List String
  | [], acc => [String.mk acc.reverse]
  | c :: cs, acc =>
    if c.isWhitespace then String.mk acc.reverse :: wsSplitAux cs []
    else wsSplitAux cs (c :: acc)

/-- Python `text.split()` (no argument): split on whitespace runs and drop
empty pieces — equivalently, cut at every whitespace character and keep the
non-empty pieces. -/
def pySplit (text : String) : List String :=
  (wsSplitAux text.data []).filter (fun t => t != "")

/-- Python `range(start, stop, step)` for a positive `step`, on naturals:
`start, start+step, …` while below `stop`; its length is
`max 0 (ceil((stop-start)/step))`, here in truncated `Nat` arithmetic. -/
def pyRange3 (start stop step : Nat) : List Nat :=
  (List.range ((stop - start + step - 1) / step)).map (fun k => start + k * step)

/-- Helper for `pyStr`: decimal digits of `n`, most significant first, by
repeated division by 10; `fuel` bounds the recursion depth (any `fuel > n`
gives the digits of `n`). -/
def decDigitsAux : Nat → Nat → List Char
  | 0, _ => []
  | fuel + 1, n =>
    if n < 10 then [Nat.digitChar n]
    else decDigitsAux fuel (n / 10) ++ [Nat.digitChar (n % 10)]

/-- Python `str(n)` for a non-negative int: decimal digits, most significant
first. -/
def pyStr (n : Nat) : String :=
  String.mk (decDigitsAux (n + 1) n)

/-! ## Chunker (src lines 139–146)

```
def chunk_text(text, chunk_size=800, overlap=100):
    tokens = text.split()
    chunks, start = [], 0
    while start < len(tokens):
        end = min(start + chunk_size, len(tokens))
        chunks.append(" ".join(tokens[start:end]))
        start += chunk_size - overlap
    return chunks
```
-/

/-- The `while start < len(tokens)` loop of `chunk_text`, with explicit
fuel; `none` means the loop has not terminated within `fuel` tests of the
loop condition.  `start` is a Python int: it can go negative when
`overlap > chunk_size`. -/
def chunkLoop (tokens : List String) (chunk_size overlap : Int) :
    Nat → Int → List String → Option (List String)
  | 0, _, _ => none
  | fuel + 1, start, chunks =>
    if start < (tokens.length : Int) then
      chunkLoop tokens chunk_size overlap fuel (start + (chunk_size - overlap))
        (chunks ++
          [pyJoin " " (pySlice tokens start (min (start + chunk_size) (tokens.length : Int)))])
    else some chunks

/-- `chunk_text(text, chunk_size, overlap)`, run with the given fuel. -/
def chunk_textFuel (text : String) (chunk_size overlap : Int) (fuel : Nat) :
    Option (List String) :=
  chunkLoop (pySplit text) chunk_size overlap fuel 0 []

/-! ## Identifier builder (src lines 209–211 and 254–255)

```
def sanitize_id(s):
    return re.sub(r'[^A-Za-z0-9_\-=]', "_", s)
...
raw_id = f"{rel_path.replace(os.sep, '_')}_chunk_{i}"
safe_id = sanitize_id(raw_id)
```
-/

/-- The characters accepted by the regex class `[A-Za-z0-9_\-=]`. -/
def allowedChar (c : Char) : Bool :=
  (decide ('A' ≤ c) && decide (c ≤ 'Z')) ||
    (decide ('a' ≤ c) && decide (c ≤ 'z')) ||
    (decide ('0' ≤ c) && decide (c ≤ '9')) ||
    c == '_' || c == '-' || c == '='

/-- `sanitize_id` (src lines 209–211): the regex substitution replaces each
character outside the class `[A-Za-z0-9_\-=]` with an underscore. -/
def sanitize_id (s : String) : String :=
  String.mk (s.data.map (fun c => if allowedChar c then c else '_'))

/-- The raw id built in `main` (src line 254):
`f"{rel_path.replace(os.sep, '_')}_chunk_{i}"` with `os.sep = "/"`;
`str.replace` with a one-character pattern replaces each occurrence of that
character. -/
def rawId (rel_path : String) (i : Nat) : String :=
  String.mk (rel_path.data.map (fun c => if c == '/' then '_' else c)) ++
    "_chunk_" ++ pyStr i

/-- The document id produced in `main` (src lines 254–255). -/
def makeId (rel_path : String) (i : Nat) : String :=
  sanitize_id (rawId rel_path i)

/-! ## Extractor dispatch (src lines 123–135) -/

/-- Lowercasing of one character as done by `str.lower` on ASCII input
(letters `A`–`Z`, code points 65–90, move to 97–122). -/
def asciiLower (c : Char) : Char :=
  if 65 ≤ c.toNat && c.toNat ≤ 90 then Char.ofNat (c.toNat + 32) else c

/-- `path.lower()` (src line 124) on ASCII text. -/
def pyLower (s : String) : String :=
  String.mk (s.data.map asciiLower)

/-- Python `s.endswith(post)`. -/
def pyEndsWith (s post : String) : Bool :=
  post.data.isSuffixOf s.data

/-- The five recognized file formats of the extractor. -/
inductive FileKind
  | pdf | docx | pptx | xlsx | csv
deriving DecidableEq

/-- The dispatch decision of `extract_text` (src lines 123–135): lowercase
the path once, then test the five suffixes in order; `none` means the final
`return ""` is taken. -/
def dispatchKind (path : String) : Option FileKind :=
  let pl := pyLower path
  if pyEndsWith pl ".pdf" then some .pdf
  else if pyEndsWith pl ".docx" then some .docx
  else if pyEndsWith pl ".pptx" then some .pptx
  else if pyEndsWith pl ".xlsx" then some .xlsx
  else if pyEndsWith pl ".csv" then some .csv
  else none

/-- `extract_text` (src lines 123–135).  `handlers` models the per-format
extractors (src lines 39–120); each of those catches its own import and
parse failures and returns a string, so a handler is a total function to
strings. -/
def extract_text (handlers : FileKind → String → String) (path : String) : String :=
  match dispatchKind path with
  | some k => handlers k path
  | none => ""

/-! ## Batch uploader (src lines 185–207)

```
for i in range(0, len(docs), batch_size):
    batch = docs[i:i + batch_size]
    try:
        result = search_client.upload_documents(documents=batch)
        print(f"Uploaded batch ... ")
    except Exception as e:
        logging.error(f"Failed to upload batch ...")
```
-/

/-- A document as built in `main` (src lines 257–260). -/
structure Doc where
  id : String
  text : String
deriving DecidableEq

/-- Observable behaviour of `upload_documents` (src lines 185–207).  The
backend call at line 204 is modelled by the oracle `ok` (applied to the
printed ordinal `i // batch_size + 1` and the batch): `true` means the call
returns, `false` that it raises.  The `try/except` at lines 203–207 logs a
failure and continues the loop, so the function returns the submissions
attempted, in order: `(ordinal, batch docs[i:i+batch_size], outcome)`.
With empty `docs` the function returns at line 188 before any submission. -/
def upload_documents (docs : List Doc) (batch_size : Nat)
    (ok : Nat → List Doc → Bool) : List (Nat × List Doc × Bool) :=
  if docs.isEmpty then []
  else
    (pyRange3 0 docs.length batch_size).map (fun (i : Nat) =>
      let batch := pySlice docs (Int.ofNat i) (Int.ofNat (i + batch_size))
      (i / batch_size + 1, batch, ok (i / batch_size + 1) batch))

/-! ## Configuration stage of `main` (src lines 214–229, 275–277) -/

/-- The five required environment variables (src line 225). -/
def requiredVars : List String :=
  ["BLOB_CONNECTION_STRING", "BLOB_CONTAINER_NAME", "SEARCH_ENDPOINT",
    "SEARCH_KEY", "SEARCH_INDEX"]

/-- Python truthiness of `os.getenv(v)` as used in `not os.getenv(v)`
(src line 226): `None` and the empty string are falsy. -/
def truthy : Option String → Bool
  | none => false
  | some s => s != ""

/-- Outcome of the configuration stage of `main`. -/
inductive ConfigOutcome
  | internalError
  | configError (missing : List String)
  | proceed
deriving DecidableEq

/-- The configuration stage of `main` (src lines 217–229) under the
top-level handler (src lines 275–277).  Line 224 evaluates
`"env variables: " + connection_string + container_name + ...`; in Python,
concatenating `None` onto a string raises `TypeError`, which the top-level
`except Exception` turns into the `"Internal Server Error: ..."` return.
Only when all five variables are present (strings, possibly empty) does
control reach the missing-variable check of lines 225–229, which treats
empty strings as missing; if nothing is missing, control proceeds to the
blob-download stage (line 233). -/
def mainConfigStage (env : String → Option String) : ConfigOutcome :=
  if requiredVars.any (fun v => (env v).isNone) then .internalError
  else
    let missing := requiredVars.filter (fun v => !truthy (env v))
    if missing.isEmpty then .proceed else .configError missing

/-! ## Helper lemmas -/

theorem take_clamp (l : List α) (n : Nat) : l.take (min n l.length) = l.take n := by
  rw [← List.take_take, List.take_length]

theorem pySlice_natCast (xs : List α) (a b : Nat) :
    pySlice xs (Int.ofNat a) (Int.ofNat b) = (xs.drop a).take (b - a) := by
  unfold pySlice pyIdx
  simp only [Int.ofNat_eq_coe, Int.toNat_ofNat]
  rw [if_neg (by omega : ¬ ((b : Int) < 0)), if_neg (by omega : ¬ ((a : Int) < 0))]
  rcases Nat.le_total a xs.length with h | h
  · rw [Nat.min_eq_left h, take_clamp]
    rcases Nat.le_total a b with hab | hab
    · have hb : a + (b - a) = b := by omega
      rw [List.take_drop, hb]
    · have hb : b - a = 0 := by omega
      rw [hb, List.take_zero]
      refine List.drop_eq_nil_of_le ?_
      rw [List.length_take]
      omega
  · rw [Nat.min_eq_right h, List.drop_eq_nil_of_le h, List.take_nil,
      List.drop_eq_nil_of_le (by rw [List.length_take]; omega)]

theorem pyJoin_foldl_length (sep : String) :
    ∀ (xs : List String) (acc : String),
      acc.length ≤ (xs.foldl (fun a t => a ++ sep ++ t) acc).length := by
  intro xs
  induction xs with
  | nil => intro acc; exact Nat.le_refl _
  | cons x xs ih =>
    intro acc
    refine Nat.le_trans ?_ (ih (acc ++ sep ++ x))
    simp only [String.length_append]
    omega

theorem string_ne_empty_of_data_ne {s : String} (h : s.data ≠ []) : s ≠ "" := by
  intro he
  exact h (by rw [he])

theorem string_length_pos {s : String} (h : s ≠ "") : 0 < s.length := by
  rcases s with ⟨l⟩
  cases l with
  | nil => exact absurd rfl h
  | cons c cs => simp [String.length]

theorem pyJoin_ne_empty (sep x : String) (xs : List String) (hx : x ≠ "") :
    pyJoin sep (x :: xs) ≠ "" := by
  intro he
  have h1 : x.length ≤ (pyJoin sep (x :: xs)).length := pyJoin_foldl_length sep xs x
  rw [he] at h1
  have h2 : 0 < x.length := string_length_pos hx
  have h0 : ("" : String).length = 0 := rfl
  rw [h0] at h1
  omega

theorem pySplit_mem_ne_empty {text : String} {t : String} (h : t ∈ pySplit text) :
    t ≠ "" := by
  unfold pySplit at h
  rw [List.mem_filter] at h
  simpa using h.2

theorem wsSplitAux_no_ws :
    ∀ (cs acc : List Char), (∀ ch ∈ acc, ch.isWhitespace = false) →
      ∀ t ∈ wsSplitAux cs acc, ∀ ch ∈ t.data, ch.isWhitespace = false := by
  intro cs
  induction cs with
  | nil =>
    intro acc hacc t ht ch hch
    rw [wsSplitAux, List.mem_singleton] at ht
    subst ht
    rw [show (String.mk acc.reverse).data = acc.reverse from rfl,
      List.mem_reverse] at hch
    exact hacc ch hch
  | cons c cs ih =>
    intro acc hacc t ht ch hch
    rw [wsSplitAux] at ht
    by_cases hws : c.isWhitespace
    · rw [if_pos hws] at ht
      rcases List.mem_cons.mp ht with ht | ht
      · subst ht
        rw [show (String.mk acc.reverse).data = acc.reverse from rfl,
          List.mem_reverse] at hch
        exact hacc ch hch
      · exact ih [] (by intro ch' hch'; simp at hch') t ht ch hch
    · rw [if_neg hws] at ht
      refine ih (c :: acc) ?_ t ht ch hch
      intro ch' hch'
      rcases List.mem_cons.mp hch' with h | h
      · subst h
        simpa using hws
      · exact hacc ch' h

/-- Every piece of `pySplit` is whitespace-free: `str.split()` cuts at each
whitespace character, so no piece contains one. -/
theorem pySplit_mem_no_ws {text t : String} (h : t ∈ pySplit text) :
    ∀ ch ∈ t.data, ch.isWhitespace = false := by
  unfold pySplit at h
  rw [List.mem_filter] at h
  exact wsSplitAux_no_ws text.data [] (by intro ch hch; simp at hch) t h.1

theorem ceil_div_step (r s : Nat) (hs : 1 ≤ s) (hr : 1 ≤ r) :
    (r + s - 1) / s = ((r - s) + s - 1) / s + 1 := by
  have h1 : r + s - 1 = (r - 1) + s := by omega
  rw [h1, Nat.add_div_right _ hs]
  rcases le_or_lt r s with h | h
  · have h2 : r - s = 0 := by omega
    have h3 : (r - 1) / s = 0 := Nat.div_eq_of_lt (by omega)
    have h4 : (0 + s - 1) / s = 0 := Nat.div_eq_of_lt (by omega)
    rw [h2, h3, h4]
  · have h2 : (r - s) + s - 1 = (r - s - 1) + s := by omega
    have h3 : r - 1 = (r - s - 1) + s := by omega
    rw [h2, h3, Nat.add_div_right _ hs]

theorem ceil_div_le (r s : Nat) (hs : 1 ≤ s) : (r + s - 1) / s ≤ r := by
  rcases Nat.eq_zero_or_pos r with h | h
  · subst h
    have : (0 + s - 1) / s = 0 := Nat.div_eq_of_lt (by omega)
    omega
  · have h1 : r + s - 1 = (r - 1) + s := by omega
    rw [h1, Nat.add_div_right _ hs]
    have := Nat.div_le_self (r - 1) s
    omega

theorem mul_lt_of_lt_ceil_div {k r s : Nat} (hs : 1 ≤ s) (hk : k < (r + s - 1) / s) :
    k * s < r := by
  have h2 : (k + 1) * s ≤ ((r + s - 1) / s) * s := Nat.mul_le_mul_right _ hk
  have h3 : ((r + s - 1) / s) * s ≤ r + s - 1 := Nat.div_mul_le_self _ _
  have h4 : (k + 1) * s = k * s + s := by ring
  omega

theorem asciiLower_of_cond_false {c : Char}
    (h : (decide (65 ≤ c.toNat) && decide (c.toNat ≤ 90)) = false) :
    asciiLower c = c := by
  unfold asciiLower
  rw [h]
  rfl

theorem asciiLower_of_upper {c : Char} (h65 : 65 ≤ c.toNat) (h90 : c.toNat ≤ 90) :
    asciiLower c = Char.ofNat (c.toNat + 32) := by
  unfold asciiLower
  rw [decide_eq_true h65, decide_eq_true h90]
  rfl

theorem asciiLower_idem (c : Char) : asciiLower (asciiLower c) = asciiLower c := by
  by_cases h : 65 ≤ c.toNat ∧ c.toNat ≤ 90
  · rw [asciiLower_of_upper h.1 h.2]
    have key : ∀ n, n < 91 → 65 ≤ n →
        (decide (65 ≤ (Char.ofNat (n + 32)).toNat) &&
          decide ((Char.ofNat (n + 32)).toNat ≤ 90)) = false := by decide
    exact asciiLower_of_cond_false (key c.toNat (by omega) h.1)
  · have hb : (decide (65 ≤ c.toNat) && decide (c.toNat ≤ 90)) = false := by
      rcases Nat.lt_or_ge c.toNat 65 with h1 | h1
      · rw [decide_eq_false (by omega), Bool.false_and]
      · have h2 : ¬ (c.toNat ≤ 90) := fun hc => h ⟨h1, hc⟩
        rw [decide_eq_false h2, Bool.and_false]
    rw [asciiLower_of_cond_false hb, asciiLower_of_cond_false hb]

theorem pyLower_idem (s : String) : pyLower (pyLower s) = pyLower s := by
  unfold pyLower
  refine congrArg String.mk ?_
  show (s.data.map asciiLower).map asciiLower = s.data.map asciiLower
  rw [List.map_map]
  exact List.map_congr_left (fun c _ => asciiLower_idem c)

/-- The chunk the loop builds when the start offset is the token index
`start`: the space-join of the following (at most `size`) tokens. -/
def chunkAt (tokens : List String) (size start : Nat) : String :=
  pyJoin " " ((tokens.drop start).take size)

theorem chunkLoop_run (size ov : Nat) (hov : ov < size) (tokens : List String) :
    ∀ (fuel : Nat), ∀ (start : Nat) (acc : List String),
      (tokens.length - start + (size - ov) - 1) / (size - ov) < fuel →
      chunkLoop tokens (Int.ofNat size) (Int.ofNat ov) fuel (Int.ofNat start) acc =
        some (acc ++
          (List.range ((tokens.length - start + (size - ov) - 1) / (size - ov))).map
            (fun k => chunkAt tokens size (start + k * (size - ov)))) := by
  intro fuel
  induction fuel with
  | zero => intro start acc h; exact absurd h (Nat.not_lt_zero _)
  | succ f ih =>
    intro start acc h
    have hs1 : 1 ≤ size - ov := by omega
    by_cases hlt : start < tokens.length
    · have hcond : Int.ofNat start < (tokens.length : Int) := by
        simp only [Int.ofNat_eq_coe]
        exact_mod_cast hlt
      rw [chunkLoop, if_pos hcond]
      have hstep : Int.ofNat start + (Int.ofNat size - Int.ofNat ov) =
          Int.ofNat (start + (size - ov)) := by
        simp only [Int.ofNat_eq_coe]
        push_cast
        omega
      have hmin : min (Int.ofNat start + Int.ofNat size) (tokens.length : Int) =
          Int.ofNat (min (start + size) tokens.length) := by
        simp only [Int.ofNat_eq_coe]
        push_cast
        omega
      have hchunk : pyJoin " " (pySlice tokens (Int.ofNat start)
          (min (Int.ofNat start + Int.ofNat size) (tokens.length : Int))) =
          chunkAt tokens size start := by
        rw [hmin, pySlice_natCast]
        unfold chunkAt
        have h1 : min (start + size) tokens.length - start =
            min size ((tokens.drop start).length) := by
          rw [List.length_drop]
          omega
        rw [h1, take_clamp]
      rw [hstep, hchunk]
      have hr : 1 ≤ tokens.length - start := by omega
      have hsplit : (tokens.length - start + (size - ov) - 1) / (size - ov) =
          (tokens.length - (start + (size - ov)) + (size - ov) - 1) / (size - ov) + 1 := by
        have h2 : tokens.length - (start + (size - ov)) =
            (tokens.length - start) - (size - ov) := by omega
        rw [h2]
        exact ceil_div_step _ _ hs1 hr
      have hfuel : (tokens.length - (start + (size - ov)) + (size - ov) - 1) /
          (size - ov) < f := by
        rw [hsplit] at h
        exact Nat.lt_of_succ_lt_succ h
      rw [ih (start + (size - ov)) (acc ++ [chunkAt tokens size start]) hfuel]
      refine congrArg some ?_
      rw [hsplit, List.range_succ_eq_map, List.map_cons, List.map_map]
      have hz : start + 0 * (size - ov) = start := by omega
      rw [List.append_assoc]
      refine congrArg (acc ++ ·) ?_
      rw [hz]
      refine congrArg (chunkAt tokens size start :: ·) ?_
      refine List.map_congr_left (fun k _ => ?_)
      show chunkAt tokens size (start + (size - ov) + k * (size - ov)) =
        chunkAt tokens size (start + Nat.succ k * (size - ov))
      refine congrArg (chunkAt tokens size) ?_
      rw [Nat.succ_eq_add_one]
      ring
    · have hcond : ¬ (Int.ofNat start < (tokens.length : Int)) := by
        simp only [Int.ofNat_eq_coe]
        omega
      rw [chunkLoop, if_neg hcond]
      have h0 : tokens.length - start = 0 := by omega
      have hm : (tokens.length - start + (size - ov) - 1) / (size - ov) = 0 := by
        rw [h0]
        exact Nat.div_eq_of_lt (by omega)
      rw [hm]
      simp

theorem decDigitsAux_ne_nil (fuel n : Nat) (h : 0 < fuel) : decDigitsAux fuel n ≠ [] := by
  cases fuel with
  | zero => omega
  | succ f =>
    rw [decDigitsAux]
    by_cases h10 : n < 10
    · rw [if_pos h10]
      simp
    · rw [if_neg h10]
      simp

theorem decDigitsAux_digit :
    ∀ (fuel n : Nat), ∀ c ∈ decDigitsAux fuel n, ∃ d, d < 10 ∧ c = Nat.digitChar d := by
  intro fuel
  induction fuel with
  | zero => intro n c hc; simp [decDigitsAux] at hc
  | succ f ih =>
    intro n c hc
    rw [decDigitsAux] at hc
    by_cases h10 : n < 10
    · rw [if_pos h10] at hc
      simp at hc
      exact ⟨n, h10, hc⟩
    · rw [if_neg h10] at hc
      rw [List.mem_append] at hc
      rcases hc with hc | hc
      · exact ih _ c hc
      · simp at hc
        exact ⟨n % 10, Nat.mod_lt _ (by omega), hc⟩

theorem digitChar_inj_lt : ∀ m, m < 10 → ∀ n, n < 10 →
    Nat.digitChar m = Nat.digitChar n → m = n := by decide

theorem decDigitsAux_inj :
    ∀ (fuel fuel' m n : Nat), m < fuel → n < fuel' →
      decDigitsAux fuel m = decDigitsAux fuel' n → m = n := by
  intro fuel
  induction fuel with
  | zero => intro fuel' m n hm _ _; exact absurd hm (Nat.not_lt_zero _)
  | succ f ih =>
    intro fuel' m n hm hn heq
    cases fuel' with
    | zero => exact absurd hn (Nat.not_lt_zero _)
    | succ f' =>
      rw [decDigitsAux, decDigitsAux] at heq
      by_cases hm10 : m < 10 <;> by_cases hn10 : n < 10
      · rw [if_pos hm10, if_pos hn10] at heq
        simp at heq
        exact digitChar_inj_lt m hm10 n hn10 heq
      · rw [if_pos hm10, if_neg hn10] at heq
        have hA : decDigitsAux f' (n / 10) ≠ [] := decDigitsAux_ne_nil _ _ (by omega)
        have hlen := congrArg List.length heq
        simp [List.length_append] at hlen
        exact absurd hlen hA
      · rw [if_neg hm10, if_pos hn10] at heq
        have hA : decDigitsAux f (m / 10) ≠ [] := decDigitsAux_ne_nil _ _ (by omega)
        have hlen := congrArg List.length heq
        simp [List.length_append] at hlen
        exact absurd hlen hA
      · rw [if_neg hm10, if_neg hn10] at heq
        have h1 := congrArg List.reverse heq
        simp only [List.reverse_append, List.reverse_cons, List.reverse_nil,
          List.nil_append, List.singleton_append] at h1
        obtain ⟨hd, htl⟩ := List.cons.inj h1
        have hdiv : m / 10 = n / 10 := by
          refine ih f' (m / 10) (n / 10) (by omega) (by omega) ?_
          have := congrArg List.reverse htl
          simpa using this
        have hmod : m % 10 = n % 10 :=
          digitChar_inj_lt _ (Nat.mod_lt _ (by omega)) _ (Nat.mod_lt _ (by omega)) hd
        omega

theorem allowedChar_digitChar : ∀ d, d < 10 → allowedChar (Nat.digitChar d) = true := by
  decide

theorem sanitize_map_digits (n : Nat) :
    (decDigitsAux (n + 1) n).map (fun c => if allowedChar c then c else '_') =
      decDigitsAux (n + 1) n := by
  have h : ∀ c ∈ decDigitsAux (n + 1) n,
      (if allowedChar c then c else '_') = c := by
    intro c hc
    obtain ⟨d, hd, rfl⟩ := decDigitsAux_digit _ _ c hc
    rw [if_pos (allowedChar_digitChar d hd)]
  calc (decDigitsAux (n + 1) n).map (fun c => if allowedChar c then c else '_')
      = (decDigitsAux (n + 1) n).map id := List.map_congr_left h
    _ = decDigitsAux (n + 1) n := List.map_id _

theorem flatten_batches :
    ∀ (m B : Nat) (l : List α), 1 ≤ B → m = (l.length + B - 1) / B →
      ((List.range m).map (fun k => (l.drop (k * B)).take B)).flatten = l := by
  intro m
  induction m with
  | zero =>
    intro B l hB hm
    have h0 : l.length = 0 := by
      by_contra hne
      have h1 : 1 ≤ l.length := by omega
      have h2 := ceil_div_step l.length B hB h1
      exact absurd (hm.trans h2).symm (Nat.succ_ne_zero _)
    rw [List.length_eq_zero.mp h0]
    simp
  | succ m ih =>
    intro B l hB hm
    have h1 : 1 ≤ l.length := by
      by_contra hne
      have h0 : l.length = 0 := by omega
      rw [h0] at hm
      have h2 : (0 + B - 1) / B = 0 := Nat.div_eq_of_lt (by omega)
      omega
    have hm2 := hm
    rw [ceil_div_step l.length B hB h1] at hm2
    have hm' : m = ((l.drop B).length + B - 1) / B := by
      rw [List.length_drop]
      exact Nat.succ.inj hm2
    rw [List.range_succ_eq_map, List.map_cons, List.map_map, List.flatten_cons]
    have hhead : (l.drop (0 * B)).take B = l.take B := by
      rw [Nat.zero_mul, List.drop_zero]
    have htail : ((List.range m).map
        ((fun k => (l.drop (k * B)).take B) ∘ Nat.succ)).flatten = l.drop B := by
      have hmap : (List.range m).map ((fun k => (l.drop (k * B)).take B) ∘ Nat.succ) =
          (List.range m).map (fun k => ((l.drop B).drop (k * B)).take B) := by
        refine List.map_congr_left (fun k _ => ?_)
        show (l.drop (Nat.succ k * B)).take B = ((l.drop B).drop (k * B)).take B
        rw [List.drop_drop]
        refine congrArg (fun x => (l.drop x).take B) ?_
        rw [Nat.succ_eq_add_one]
        ring
      rw [hmap]
      exact ih B (l.drop B) hB hm'
    rw [hhead, htail, List.take_append_drop]

theorem upload_documents_eq (docs : List Doc) (B : Nat) (ok : Nat → List Doc → Bool)
    (hB : 1 ≤ B) :
    upload_documents docs B ok =
      (List.range ((docs.length + B - 1) / B)).map
        (fun k => (k + 1, (docs.drop (k * B)).take B,
          ok (k + 1) ((docs.drop (k * B)).take B))) := by
  unfold upload_documents
  by_cases hd : docs.isEmpty
  · rw [if_pos hd]
    have h0 : docs.length = 0 := by
      rw [List.isEmpty_iff] at hd
      rw [hd]
      rfl
    rw [h0]
    have h2 : (0 + B - 1) / B = 0 := Nat.div_eq_of_lt (by omega)
    rw [h2]
    rfl
  · rw [if_neg hd]
    unfold pyRange3
    rw [List.map_map, Nat.sub_zero]
    refine List.map_congr_left (fun k hk => ?_)
    have h1 : 0 + k * B = k * B := by omega
    have h2 : (k * B) / B = k := Nat.mul_div_cancel k hB
    have h3 : pySlice docs (Int.ofNat (k * B)) (Int.ofNat (k * B + B)) =
        (docs.drop (k * B)).take B := by
      rw [pySlice_natCast]
      refine congrArg (docs.drop (k * B)).take ?_
      omega
    show ((0 + k * B) / B + 1,
        pySlice docs (Int.ofNat (0 + k * B)) (Int.ofNat (0 + k * B + B)),
        ok ((0 + k * B) / B + 1)
          (pySlice docs (Int.ofNat (0 + k * B)) (Int.ofNat (0 + k * B + B)))) = _
    rw [h1, h2, h3]

theorem dispatchKind_pyLower (p : String) : dispatchKind (pyLower p) = dispatchKind p := by
  unfold dispatchKind
  rw [pyLower_idem]

/-! ## Claims -/

/-- C1, counterexample: on the spec's own example — text
`"a b c d e f g h i j"` (10 tokens), `chunk_size = 4`, `overlap = 1` — the
code returns FOUR chunks (start offsets 0, 3, 6, 9), the last being the
single token `"j"`, while the claim demands exactly the three chunks
`["a b c d", "d e f g", "g h i j"]` and a count of
`ceil((10 - 1) / (4 - 1)) = 3`. -/
theorem C1_counterexample :
    chunk_textFuel "a b c d e f g h i j" 4 1 20 =
      some ["a b c d", "d e f g", "g h i j", "j"] ∧
    (["a b c d", "d e f g", "g h i j", "j"] : List String).length = 4 ∧
    (10 - 1 + (4 - 1) - 1) / (4 - 1) = 3 :=
  ⟨by decide, by decide, by decide⟩

/-- C1, amended: for `overlap < chunk_size`, `chunk_text` terminates (fuel
`T + 1` suffices, `T` the whitespace-token count) and returns exactly
`ceil(T / (chunk_size - overlap))` chunks — `(T + step - 1) / step` in
truncated natural arithmetic, which is `0` exactly when `T = 0`. -/
theorem C1_chunk_count (text : String) (chunk_size overlap : Nat)
    (hov : overlap < chunk_size) :
    (chunk_textFuel text (Int.ofNat chunk_size) (Int.ofNat overlap)
        ((pySplit text).length + 1)).map List.length =
      some (((pySplit text).length + (chunk_size - overlap) - 1) /
        (chunk_size - overlap)) ∧
    ((pySplit text).length = 0 →
      chunk_textFuel text (Int.ofNat chunk_size) (Int.ofNat overlap)
        ((pySplit text).length + 1) = some []) := by
  have hs1 : 1 ≤ chunk_size - overlap := by omega
  have hfuel : ((pySplit text).length - 0 + (chunk_size - overlap) - 1) /
      (chunk_size - overlap) < (pySplit text).length + 1 := by
    rw [Nat.sub_zero]
    have := ceil_div_le (pySplit text).length (chunk_size - overlap) hs1
    omega
  have hrun := chunkLoop_run chunk_size overlap hov (pySplit text)
    ((pySplit text).length + 1) 0 [] hfuel
  have hstart : chunk_textFuel text (Int.ofNat chunk_size) (Int.ofNat overlap)
      ((pySplit text).length + 1) =
      chunkLoop (pySplit text) (Int.ofNat chunk_size) (Int.ofNat overlap)
        ((pySplit text).length + 1) (Int.ofNat 0) [] := rfl
  constructor
  · rw [hstart, hrun]
    simp
  · intro h0
    rw [hstart, hrun]
    have hm : ((pySplit text).length - 0 + (chunk_size - overlap) - 1) /
        (chunk_size - overlap) = 0 := by
      rw [Nat.sub_zero, h0]
      exact Nat.div_eq_of_lt (by omega)
    rw [hm]
    rfl

/-- C1, witness: on the ten-token example with `chunk_size = 4`,
`overlap = 1` the amended count formula gives `(10 + 3 - 1) / 3 = 4`
chunks. -/
theorem C1_chunk_count_witness :
    (chunk_textFuel "a b c d e f g h i j" (Int.ofNat 4) (Int.ofNat 1)
        ((pySplit "a b c d e f g h i j").length + 1)).map List.length =
      some (((pySplit "a b c d e f g h i j").length + (4 - 1) - 1) / (4 - 1)) :=
  (C1_chunk_count "a b c d e f g h i j" 4 1 (by decide)).1

/-- C2: a run with `BLOB_CONNECTION_STRING` unset (and every other required
variable set and non-empty) returns the internal-error report coming from
the `TypeError` raised by the debug `print` at src line 224 — not the
`"Missing required environment variables: ..."` configuration message of
src line 229, which is unreachable when a variable is absent. -/
theorem C2_absent_var_yields_internal_error :
    mainConfigStage
        (fun v => if v == "BLOB_CONNECTION_STRING" then none else some "x") =
      ConfigOutcome.internalError ∧
    ∀ missing : List String,
      ConfigOutcome.internalError ≠ ConfigOutcome.configError missing :=
  ⟨by decide, fun _ h => ConfigOutcome.noConfusion h⟩

/-- C3: `chunk_text` does not validate `overlap < chunk_size`.  With
`chunk_size = overlap = 2` on the two-token text `"a b"` the start offset
never advances and the loop never terminates: no amount of fuel makes the
loop return, and no error is signalled. -/
theorem C3_no_validation_loop_forever :
    ∀ fuel : Nat, chunk_textFuel "a b" 2 2 fuel = none := by
  have key : ∀ (fuel : Nat) (acc : List String),
      chunkLoop (pySplit "a b") 2 2 fuel 0 acc = none := by
    intro fuel
    induction fuel with
    | zero => intro acc; rfl
    | succ f ih =>
      intro acc
      rw [chunkLoop, if_pos (by decide : (0 : Int) < ((pySplit "a b").length : Int))]
      rw [show (0 : Int) + (2 - 2) = 0 from by decide]
      exact ih _
  intro fuel
  exact key fuel []

/-- C4, counterexample: the distinct (relative path, chunk index) pairs
`("a b", 0)` and `("a_b", 0)` — two distinct file names that can coexist in
one container — produce the same document id `"a_b_chunk_0"`, because
sanitization maps the space to an underscore. -/
theorem C4_id_collision :
    makeId "a b" 0 = makeId "a_b" 0 ∧
    ("a b", (0 : Nat)) ≠ ("a_b", (0 : Nat)) :=
  ⟨by decide, by decide⟩

/-- C4, amended: ids are deterministic and distinct across chunk indices of
the same relative path (the decimal chunk index survives sanitization
unchanged), but distinct relative paths can collide after sanitization, so
uniqueness across a whole run does not hold in general. -/
theorem C4_id_unique_per_path (rel_path : String) (i j : Nat) (hij : i ≠ j) :
    makeId rel_path i ≠ makeId rel_path j := by
  intro he
  apply hij
  have hshape : ∀ n : Nat, (makeId rel_path n).data =
      ((rel_path.data.map (fun c => if c == '/' then '_' else c)).map
          (fun c => if allowedChar c then c else '_') ++
        "_chunk_".data.map (fun c => if allowedChar c then c else '_')) ++
      decDigitsAux (n + 1) n := by
    intro n
    show ((rel_path.data.map (fun c => if c == '/' then '_' else c) ++
        "_chunk_".data ++ decDigitsAux (n + 1) n).map
          (fun c => if allowedChar c then c else '_')) = _
    rw [List.map_append, List.map_append, sanitize_map_digits n]
  have hdata := congrArg String.data he
  rw [hshape i, hshape j] at hdata
  have hD := List.append_cancel_left hdata
  exact decDigitsAux_inj (i + 1) (j + 1) i j (by omega) (by omega) hD

/-- C4, witness: chunks 0 and 1 of the same file receive distinct ids. -/
theorem C4_id_unique_per_path_witness : makeId "a.pdf" 0 ≠ makeId "a.pdf" 1 :=
  C4_id_unique_per_path "a.pdf" 0 1 (by decide)

/-- C5: batch-failure isolation.  Whatever set of batch ordinals is made to
fail, the uploader attempts exactly the same batches, with the same
contents, in the same order, as in an all-success run — a failing batch
never prevents later batches — and each attempt's outcome depends only on
the failure status of its own ordinal. -/
theorem C5_batch_failure_isolation (docs : List Doc) (B : Nat)
    (fail : Nat → Bool) (hB : 1 ≤ B) :
    (upload_documents docs B (fun ord _ => !fail ord)).map (fun r => (r.1, r.2.1)) =
      (upload_documents docs B (fun _ _ => true)).map (fun r => (r.1, r.2.1)) ∧
    (upload_documents docs B (fun ord _ => !fail ord)).length =
      (docs.length + B - 1) / B ∧
    ∀ k : Nat, (upload_documents docs B (fun ord _ => !fail ord)).get? k =
      ((upload_documents docs B (fun _ _ => true)).get? k).map
        (fun r => (r.1, r.2.1, !fail r.1)) := by
  rw [upload_documents_eq _ _ _ hB, upload_documents_eq _ _ _ hB]
  refine ⟨?_, by simp, ?_⟩
  · rw [List.map_map, List.map_map]
    exact List.map_congr_left (fun k _ => rfl)
  · intro k
    rw [List.get?_map, List.get?_map]
    rcases h : (List.range ((docs.length + B - 1) / B)).get? k with _ | a
    · rfl
    · rfl

/-- C5, witness: with three documents, batch size 2 and the first batch
made to fail, both batches are still attempted. -/
theorem C5_batch_failure_isolation_witness :
    (upload_documents [Doc.mk "a" "x", Doc.mk "b" "y", Doc.mk "c" "z"] 2
        (fun ord _ => !(ord == 1))).length =
      (([Doc.mk "a" "x", Doc.mk "b" "y", Doc.mk "c" "z"] : List Doc).length + 2 - 1) / 2 :=
  (C5_batch_failure_isolation [Doc.mk "a" "x", Doc.mk "b" "y", Doc.mk "c" "z"] 2
    (fun ord => ord == 1) (by decide)).2.1

/-- C6: batch partition completeness.  For `batch_size = B ≥ 1` the uploader
submits exactly `ceil(N/B)` batches; batch `k` (0-based; printed ordinal
`k+1`) is the consecutive slice `docs[k*B : (k+1)*B]`; the batches
concatenated in order reconstruct `docs`; and empty `docs` produces no
submission at all. -/
theorem C6_batch_partition (docs : List Doc) (B : Nat)
    (ok : Nat → List Doc → Bool) (hB : 1 ≤ B) :
    (upload_documents docs B ok).length = (docs.length + B - 1) / B ∧
    ((upload_documents docs B ok).map (fun r => r.2.1)).flatten = docs ∧
    (∀ k, k < (docs.length + B - 1) / B →
      (upload_documents docs B ok).get? k =
        some (k + 1, (docs.drop (k * B)).take B,
          ok (k + 1) ((docs.drop (k * B)).take B))) ∧
    (docs = [] → upload_documents docs B ok = []) := by
  refine ⟨?_, ?_, ?_, ?_⟩
  · rw [upload_documents_eq _ _ _ hB]
    simp
  · rw [upload_documents_eq _ _ _ hB, List.map_map]
    exact flatten_batches _ B docs hB rfl
  · intro k hk
    rw [upload_documents_eq _ _ _ hB, List.get?_map, List.get?_range hk]
    rfl
  · intro h0
    rw [h0]
    rfl

/-- C6, witness: four documents with batch size 3 give `ceil(4/3) = 2`
batches. -/
theorem C6_batch_partition_witness :
    (upload_documents [Doc.mk "a" "x", Doc.mk "b" "y", Doc.mk "c" "z", Doc.mk "d" "w"] 3
        (fun _ _ => true)).length =
      (([Doc.mk "a" "x", Doc.mk "b" "y", Doc.mk "c" "z", Doc.mk "d" "w"] : List Doc).length
        + 3 - 1) / 3 :=
  (C6_batch_partition [Doc.mk "a" "x", Doc.mk "b" "y", Doc.mk "c" "z", Doc.mk "d" "w"] 3
    (fun _ _ => true) (by decide)).1

/-- C7: sanitization closure — every character of `sanitize_id`'s output
(hence of every document id) lies in `[A-Za-z0-9_\-=]` — and the spec's
example id: relative path `"Reports/Q1 (final).pdf"`, chunk index 2 yields
exactly `"Reports_Q1__final__pdf_chunk_2"`. -/
theorem C7_sanitize_closure :
    (∀ s : String, (sanitize_id s).data.all allowedChar = true) ∧
    (∀ (p : String) (i : Nat), (makeId p i).data.all allowedChar = true) ∧
    makeId "Reports/Q1 (final).pdf" 2 = "Reports_Q1__final__pdf_chunk_2" := by
  have hall : ∀ s : String, (sanitize_id s).data.all allowedChar = true := by
    intro s
    rw [List.all_eq_true]
    intro c hc
    rw [show (sanitize_id s).data =
        s.data.map (fun c => if allowedChar c then c else '_') from rfl,
      List.mem_map] at hc
    obtain ⟨a, _, rfl⟩ := hc
    by_cases h : allowedChar a
    · rw [if_pos h]
      exact h
    · rw [if_neg h]
      decide
  exact ⟨hall, fun p i => hall _, by decide⟩

/-- C8: `extract_text` is a total function to strings (each format handler
catches its own failures and returns a string); dispatch is decided on the
lowercased path, so it is case-insensitive over the recognized suffix set
pdf/docx/pptx/xlsx/csv; every path outside that set — in particular
`"notes.txt"` — deterministically yields the empty string. -/
theorem C8_extract_dispatch :
    (∀ (handlers : FileKind → String → String) (path : String),
      dispatchKind path = none → extract_text handlers path = "") ∧
    (∀ path : String, dispatchKind (pyLower path) = dispatchKind path) ∧
    (∀ handlers : FileKind → String → String,
      extract_text handlers "notes.txt" = "") ∧
    dispatchKind "report.PDF" = some FileKind.pdf ∧
    dispatchKind "Table.CsV" = some FileKind.csv := by
  refine ⟨?_, ?_, ?_, by decide, by decide⟩
  · intro handlers path hnone
    unfold extract_text
    rw [hnone]
  · exact dispatchKind_pyLower
  · intro handlers
    unfold extract_text
    rw [show dispatchKind "notes.txt" = none from by decide]

/-- C8, witness: a handler set that would return non-empty text is never
consulted for an unrecognized extension. -/
theorem C8_extract_dispatch_witness :
    extract_text (fun _ _ => "SOME TEXT") "README.md" = "" :=
  C8_extract_dispatch.1 (fun _ _ => "SOME TEXT") "README.md" (by decide)

/-- C9: `sanitize_id` is idempotent, and is the identity on any string all
of whose characters already lie in `[A-Za-z0-9_\-=]`. -/
theorem C9_sanitize_idempotent :
    (∀ s : String, sanitize_id (sanitize_id s) = sanitize_id s) ∧
    (∀ s : String, s.data.all allowedChar = true → sanitize_id s = s) := by
  constructor
  · intro s
    refine String.ext ?_
    show (s.data.map (fun c => if allowedChar c then c else '_')).map
        (fun c => if allowedChar c then c else '_') =
      s.data.map (fun c => if allowedChar c then c else '_')
    rw [List.map_map]
    refine List.map_congr_left (fun c _ => ?_)
    show (if allowedChar (if allowedChar c then c else '_')
        then (if allowedChar c then c else '_') else '_') =
      (if allowedChar c then c else '_')
    by_cases h : allowedChar c
    · rw [if_pos h, if_pos h]
    · rw [if_neg h]
      decide
  · intro s hall
    rw [List.all_eq_true] at hall
    refine String.ext ?_
    show s.data.map (fun c => if allowedChar c then c else '_') = s.data
    calc s.data.map (fun c => if allowedChar c then c else '_')
        = s.data.map id := List.map_congr_left (fun c hc => by
          rw [if_pos (hall c hc)]
          rfl)
      _ = s.data := List.map_id _

/-- C9, witness: a string made only of allowed characters is fixed by
`sanitize_id`. -/
theorem C9_sanitize_idempotent_witness : sanitize_id "abc_-=XY09" = "abc_-=XY09" :=
  C9_sanitize_idempotent.2 "abc_-=XY09" (by decide)

/-- A well-formed chunk over the token list `tokens` for window size
`chunk_size`: a non-empty string that is the space-join of at least one and
at most `chunk_size` tokens drawn from `tokens`, each non-empty and
containing no whitespace character.  Because the joined tokens are
whitespace-free and the separator is a space, the join of `n` such tokens
contains exactly `n - 1` spaces, so the decomposition length is determined
by the chunk itself and the bound `l.length ≤ chunk_size` genuinely
constrains it — see `chunkWellFormed_bound_strict`. -/
def chunkWellFormed (tokens : List String) (chunk_size : Nat) (c : String) : Prop :=
  c ≠ "" ∧ ∃ l : List String, l ≠ [] ∧ l.length ≤ chunk_size ∧
    (∀ t ∈ l, t ∈ tokens ∧ t ≠ "" ∧ ∀ ch ∈ t.data, ch.isWhitespace = false) ∧
    c = pyJoin " " l

/-- The token bound in `chunkWellFormed` is not vacuous: the two-token
string `"a b"` is not a well-formed chunk for window size 1, since any
whitespace-free decomposition of it needs two tokens — a single token would
have to be `"a b"` itself, which contains a space. -/
theorem chunkWellFormed_bound_strict : ¬ chunkWellFormed ["a", "b"] 1 "a b" := by
  rintro ⟨-, l, hne, hlen, hall, heq⟩
  obtain ⟨t, ts, rfl⟩ := List.exists_cons_of_ne_nil hne
  have hts : ts = [] := by
    rw [List.length_cons] at hlen
    exact List.length_eq_zero.mp (by omega)
  subst hts
  have hjoin : pyJoin " " [t] = t := rfl
  rw [hjoin] at heq
  have hws := (hall t (List.mem_cons_self t [])).2.2
  have hsp : ' ' ∈ t.data := by
    rw [← heq]
    decide
  exact absurd (hws ' ' hsp) (by decide)

/-- C10: for `chunk_size ≥ 1` and `overlap < chunk_size`, every chunk
`chunk_text` returns is the space-join of between 1 and `chunk_size` of the
text's whitespace tokens — each non-empty and whitespace-free, so the count
bound is pinned by the chunk itself; in particular no chunk — not even the
last — is the empty string. -/
theorem C10_chunks_nonempty (text : String) (chunk_size overlap : Nat)
    (hsz : 1 ≤ chunk_size) (hov : overlap < chunk_size) (out : List String)
    (hrun : chunk_textFuel text (Int.ofNat chunk_size) (Int.ofNat overlap)
      ((pySplit text).length + 1) = some out) :
    ∀ c ∈ out, chunkWellFormed (pySplit text) chunk_size c := by
  have hs1 : 1 ≤ chunk_size - overlap := by omega
  have hfuel : ((pySplit text).length - 0 + (chunk_size - overlap) - 1) /
      (chunk_size - overlap) < (pySplit text).length + 1 := by
    rw [Nat.sub_zero]
    have := ceil_div_le (pySplit text).length (chunk_size - overlap) hs1
    omega
  have hm := chunkLoop_run chunk_size overlap hov (pySplit text)
    ((pySplit text).length + 1) 0 [] hfuel
  have hstart : chunk_textFuel text (Int.ofNat chunk_size) (Int.ofNat overlap)
      ((pySplit text).length + 1) =
      chunkLoop (pySplit text) (Int.ofNat chunk_size) (Int.ofNat overlap)
        ((pySplit text).length + 1) (Int.ofNat 0) [] := rfl
  rw [hstart, hm] at hrun
  have hout := Option.some.inj hrun
  intro c hc
  rw [← hout, List.nil_append, List.mem_map] at hc
  obtain ⟨k, hk, rfl⟩ := hc
  rw [List.mem_range] at hk
  have hklen : k * (chunk_size - overlap) < (pySplit text).length := by
    have := mul_lt_of_lt_ceil_div hs1 (by rw [Nat.sub_zero] at hk; exact hk)
    omega
  set l := ((pySplit text).drop (0 + k * (chunk_size - overlap))).take chunk_size
    with hl
  have hlen : l.length = min chunk_size
      ((pySplit text).length - (0 + k * (chunk_size - overlap))) := by
    rw [hl, List.length_take, List.length_drop]
  have hlpos : 0 < l.length := by
    rw [hlen]
    omega
  have hlne : l ≠ [] := List.length_pos.mp hlpos
  have hsub : ∀ t ∈ l, t ∈ pySplit text := by
    intro t ht
    exact List.mem_of_mem_drop (List.mem_of_mem_take ht)
  have hmem : ∀ t ∈ l, t ∈ pySplit text ∧ t ≠ "" ∧
      ∀ ch ∈ t.data, ch.isWhitespace = false := by
    intro t ht
    exact ⟨hsub t ht, pySplit_mem_ne_empty (hsub t ht), pySplit_mem_no_ws (hsub t ht)⟩
  have hcne : chunkAt (pySplit text) chunk_size (0 + k * (chunk_size - overlap)) ≠ "" := by
    unfold chunkAt
    rw [← hl]
    obtain ⟨t, ts, hlts⟩ := List.exists_cons_of_ne_nil hlne
    rw [hlts]
    refine pyJoin_ne_empty " " t ts (pySplit_mem_ne_empty (hsub t ?_))
    rw [hlts]
    exact List.mem_cons_self t ts
  refine ⟨hcne, l, hlne, ?_, hmem, rfl⟩
  rw [hlen]
  omega

/-- C10, witness: the final chunk `"j"` of the example run is a well-formed
one-token chunk over the example's tokens. -/
theorem C10_chunks_nonempty_witness :
    chunkWellFormed (pySplit "a b c d e f g h i j") 4 "j" :=
  C10_chunks_nonempty "a b c d e f g h i j" 4 1 (by decide) (by decide)
    ["a b c d", "d e f g", "g h i j", "j"] (by decide) "j" (by decide)
